import Mathlib

/-!
Verification of the Kometa web-UI template resolution engine
(`src/webui/backend/template_processor.py`).

The Python module operates on YAML-shaped dynamic values.  We embed that
value universe as the inductive type `Value` (Null / Bool / Number /
String / Mapping / Sequence) and translate each method of
`TemplateProcessor` into an executable Lean function over it.

Modelling conventions, used consistently below:

* Python dictionaries become association lists `List (Value × Value)`
  with Python's insertion-order semantics: assigning to an existing key
  updates the value in place (keeping the originally stored key object),
  assigning to a fresh key appends (`aset`); lookup is by Python `==`
  (`pyEq`).  Keys are unique in every dict the code builds.
* Python `==` becomes `pyEq`.  It mirrors CPython on everything the
  module compares: `None`, booleans (which equal the integers 0/1),
  integers, strings, and element-wise lists.  For dict-valued operands
  CPython compares dicts order-insensitively; `pyEq` compares the entry
  lists in order.  The only dict-against-dict comparisons the module
  performs are between a pass's input and output environments, which
  preserve entry order, so the two semantics agree on every executed
  comparison.  The top-level environment comparison (`variables ==
  prev_vars`) is modelled order-insensitively by `dictEq`, exactly as in
  CPython.
* Numbers are modelled as integers (the overlay files and the claims use
  no floats).
* The unbounded `while True:` loop inside `resolve_variable` is given an
  explicit fuel parameter; `none` means the loop has not finished within
  the given fuel.  Every other loop in the source is bounded and is
  translated structurally.
* Paths that make CPython raise an uncaught exception on malformed data
  (e.g. calling `.get` on a non-dict, `.startswith` on a non-string key)
  are noted with a comment at the matching branch; no claim exercises
  them.
-/

inductive Value where
  | null
  | bool (b : Bool)
  | num (n : Int)
  | str (s : String)
  | seq (xs : List Value)
  | map (es : List (Value × Value))

/-- Python `==` on the values the module manipulates.  Booleans compare
equal to the integers 0/1 as in CPython. -/
def pyEq : Value → Value → Bool
  | .null, .null => true
  | .bool a, .bool b => a == b
  | .bool a, .num n => (if a then (1 : Int) else 0) == n
  | .num n, .bool b => n == (if b then (1 : Int) else 0)
  | .num a, .num b => a == b
  | .str a, .str b => a == b
  | .seq xs, .seq ys => goList xs ys
  | .map xs, .map ys => goEntries xs ys
  | _, _ => false
where
  goList : List Value → List Value → Bool
    | [], [] => true
    | x :: xs, y :: ys => pyEq x y && goList xs ys
    | _, _ => false
  goEntries : List (Value × Value) → List (Value × Value) → Bool
    | [], [] => true
    | (k, v) :: xs, (k', v') :: ys => pyEq k k' && pyEq v v' && goEntries xs ys
    | _, _ => false

/-- Python `repr`, as far as the module can observe it through `str` of
lists and dicts (string escaping inside `repr` is not modelled; the
claims never hinge on it). -/
def pyRepr : Value → String
  | .null => "None"
  | .bool b => if b then "True" else "False"
  | .num n => toString n
  | .str s => "\x27" ++ s ++ "\x27"
  | .seq xs => "[" ++ goList xs ++ "]"
  | .map es => "\x7b" ++ goEntries es ++ "\x7d"
where
  goList : List Value → String
    | [] => ""
    | [x] => pyRepr x
    | x :: xs => pyRepr x ++ ", " ++ goList xs
  goEntries : List (Value × Value) → String
    | [] => ""
    | [(k, v)] => pyRepr k ++ ": " ++ pyRepr v
    | (k, v) :: es => pyRepr k ++ ": " ++ pyRepr v ++ ", " ++ goEntries es

/-- Python `str()`. -/
def pyStr : Value → String
  | .null => "None"
  | .bool b => if b then "True" else "False"
  | .num n => toString n
  | .str s => s
  | .seq xs => pyRepr (.seq xs)
  | .map es => pyRepr (.map es)

/-- Python truthiness (`if data:`). -/
def pyTruthy : Value → Bool
  | .null => false
  | .bool b => b
  | .num n => n != 0
  | .str s => s != ""
  | .seq xs => !xs.isEmpty
  | .map es => !es.isEmpty

/-- A Python dict, as an insertion-ordered association list with unique
keys. -/
abbrev Dict := List (Value × Value)

/-- Dict lookup by Python equality (`d[k]` / `d.get(k)`). -/
def alookup : Dict → Value → Option Value
  | [], _ => none
  | (k0, v0) :: rest, k => if pyEq k0 k then some v0 else alookup rest k

/-- Dict assignment `d[k] = v`: update in place if an equal key is
present (keeping the stored key object, as CPython does), else append. -/
def aset : Dict → Value → Value → Dict
  | [], k, v => [(k, v)]
  | (k0, v0) :: rest, k, v =>
    if pyEq k0 k then (k0, v) :: rest else (k0, v0) :: aset rest k v

/-- Python `k in d`. -/
def amem (d : Dict) (k : Value) : Bool := (alookup d k).isSome

/-- Python `d.get(k, dflt)`. -/
def getD (d : Dict) (k : Value) (dflt : Value) : Value := (alookup d k).getD dflt

/-- Python `a.update(b)` / `\x7b**a, **b\x7d`: fold the entries of `b` into
`a` in order. -/
def dictUpdate (a b : Dict) : Dict := b.foldl (fun acc kv => aset acc kv.1 kv.2) a

/-- One direction of Python dict equality: every entry of `a` is matched
in `b`. -/
def dictSubset (a b : Dict) : Bool :=
  a.all fun kv => match alookup b kv.1 with
    | some w => pyEq kv.2 w
    | none => false

/-- Python `==` between two dicts: order-insensitive comparison of the
key/value sets (keys are unique in every dict the module builds). -/
def dictEq (a b : Dict) : Bool := dictSubset a b && dictSubset b a

/-- Python `elem in xs` for a list `xs`. -/
def pyElem (xs : List Value) (v : Value) : Bool := xs.any fun x => pyEq v x

/-- Test for a placeholder match of the regex `<<([^<>]+)>>` starting at
the head of the character list: `<<`, then a nonempty greedy run of
characters other than `<` and `>`, then `>>`.  Returns the captured
identifier and the characters following the match. -/
def matchAt : List Char → Option (String × List Char)
  | c1 :: c2 :: rest =>
    if c1 = '<' ∧ c2 = '<' then
      let run := rest.takeWhile (fun c => c ≠ '<' ∧ c ≠ '>')
      match rest.drop run.length with
      | d1 :: d2 :: tail =>
        if d1 = '>' ∧ d2 = '>' ∧ run ≠ [] then some (String.mk run, tail) else none
      | _ => none
    else none
  | _ => none

/-- The list of identifiers matched by
`re.finditer(r"<<([^<>]+)>>", result)`, in order.  Matches of this
pattern can never overlap (the interior of a match contains no `<`), so
advancing one character at a time after recording a match agrees with
the regex engine's continue-after-the-match behaviour. -/
def findInner : List Char → List String
  | [] => []
  | c :: rest =>
    match matchAt (c :: rest) with
    | some (name, _) => name :: findInner rest
    | none => findInner rest

/-- Auxiliary for `replaceAll`: scan the string, skipping `skip`
characters that belong to an occurrence already replaced. -/
def replAux (pat rep : List Char) : List Char → Nat → List Char
  | [], _ => []
  | _ :: rest, skip + 1 => replAux pat rep rest skip
  | c :: rest, 0 =>
    if pat.isPrefixOf (c :: rest) ∧ pat ≠ [] then
      rep ++ replAux pat rep rest (pat.length - 1)
    else
      c :: replAux pat rep rest 0

/-- Python `s.replace(pat, rep)`: replace every occurrence, left to
right, non-overlapping.  (The module only ever replaces the nonempty
pattern `<<name>>`; the empty-pattern corner of CPython is therefore not
modelled.) -/
def replaceAll (s pat rep : List Char) : List Char := replAux pat rep s 0

/-- Python `pat in s` (substring containment). -/
def hasSub : List Char → List Char → Bool
  | s, pat =>
    match s with
    | [] => pat.isEmpty
    | _ :: rest => pat.isPrefixOf s || hasSub rest pat

/-- Outcome of one run of the `for match in matches:` body inside
`resolve_variable`: either the early `return var_value` (the whole
string equals one placeholder) or the updated string together with the
`made_replacement` flag. -/
inductive SubstR where
  | ret (v : Value)
  | cont (result : List Char) (made : Bool)

/-- The `for match in matches:` loop of `resolve_variable` (lines
84-99): for each matched identifier, if it is bound to a non-None value
then either return that value outright (when the current string equals
the placeholder) or splice its `str()` into the string. -/
def substMatches (vars : Dict) : List String → List Char → Bool → SubstR
  | [], result, made => .cont result made
  | m :: rest, result, made =>
    match alookup vars (.str m) with
    | some .null => substMatches vars rest result made
    | none => substMatches vars rest result made
    | some v =>
      let placeholder := "<<" ++ m ++ ">>"
      if result = placeholder.data then .ret v
      else substMatches vars rest (replaceAll result placeholder.data (pyStr v).data) true

/-- The `while True:` loop of `resolve_variable` (lines 76-99).  The
source loop has no iteration bound; `fuel` makes the translation total,
with `none` meaning the loop has not terminated within `fuel`
iterations.  `Sum.inl` is the early `return var_value`, `Sum.inr` the
normal exit with the current string. -/
def innerLoop (vars : Dict) : Nat → List Char → Option (Value ⊕ List Char)
  | 0, _ => none
  | fuel + 1, result =>
    match findInner result with
    | [] => some (.inr result)
    | ms =>
      match substMatches vars ms result false with
      | .ret v => some (.inl v)
      | .cont r made => if made then innerLoop vars fuel r else some (.inr r)

/-- The `for _ in range(max_depth):` loop of `resolve_variable` (lines
70-103): run the inner loop, stop when a whole pass leaves the string
unchanged, and return the final string. -/
def outerLoop (vars : Dict) (innerFuel : Nat) : Nat → List Char → Option Value
  | 0, result => some (.str (String.mk result))
  | n + 1, result =>
    match innerLoop vars innerFuel result with
    | none => none
    | some (.inl v) => some v
    | some (.inr r) =>
      if r = result then some (.str (String.mk r)) else outerLoop vars innerFuel n r

/-- `TemplateProcessor.resolve_variable(value, variables, max_depth)`
(lines 55-113).  Strings go through the bounded re-scan loop; dicts and
lists are resolved value-wise recursively (with the default
`max_depth = 10`, as the recursive calls in the source use); `None` and
other scalars pass through.  `fuel` bounds the source's unbounded inner
`while` loop. -/
def resolve_variable (fuel : Nat) (vars : Dict) : Value → Nat → Option Value
  | .null, _ => some .null
  | .str s, maxDepth => outerLoop vars fuel maxDepth s.data
  | .map es, _ => (goEntries es).map .map
  | .seq xs, _ => (goList xs).map .seq
  | .bool b, _ => some (.bool b)
  | .num n, _ => some (.num n)
where
  goEntries : List (Value × Value) → Option (List (Value × Value))
    | [] => some []
    | (k, v) :: rest => do
      let v' ← resolve_variable fuel vars v 10
      let rest' ← goEntries rest
      pure ((k, v') :: rest')
  goList : List Value → Option (List Value)
    | [] => some []
    | v :: rest => do
      let v' ← resolve_variable fuel vars v 10
      let rest' ← goList rest
      pure (v' :: rest')

/-- One check of a conditional clause (lines 146-204), for a check key
`ck` (already known not to be the reserved key `value`) with expected
value `cv`.  Returns whether the check passes.  Mirrors the source: the
key is first placeholder-resolved (and replaces the original only if the
resolution produced a string), then dispatched on the `.exists` / `.not`
suffixes, else compared against the environment.  A non-string check key
makes CPython raise at `.endswith`; that branch is modelled as the plain
membership comparison and is exercised by no claim. -/
def checkOne (fuel : Nat) (vars : Dict) (ck cv : Value) : Option Bool := do
  let rk ← resolve_variable fuel vars ck 10
  let key : Value := match rk with | .str s => .str s | _ => ck
  match key with
  | .str ks =>
    if ".exists".data.isSuffixOf ks.data then
      let varName := String.mk (ks.data.take (ks.data.length - 7))
      let rvn ← resolve_variable fuel vars (.str varName) 10
      let varName := match rvn with | .str s => s | _ => varName
      let varValue := (alookup vars (.str varName)).getD .null
      let varExists :=
        match varValue with
        | .null => false
        | .str sv => !(hasSub sv.data "<<".data && hasSub sv.data ">>".data)
        | _ => true
      let expected :=
        match cv with
        | .bool b => b
        | _ => (pyStr cv).toLower == "true"
      pure (varExists == expected)
    else if ".not".data.isSuffixOf ks.data then
      let varName := String.mk (ks.data.take (ks.data.length - 4))
      match alookup vars (.str varName) with
      | some vv =>
        match cv with
        | .seq items => pure (!pyElem items vv)
        | _ => pure (!(pyStr vv == pyStr cv))
      | none => pure true
    else
      match alookup vars (.str ks) with
      | some vv =>
        match cv with
        | .seq items => pure (pyElem items vv)
        | _ => pure (pyStr vv == pyStr cv)
      | none => pure false
  | _ =>
    match alookup vars key with
    | some vv =>
      match cv with
      | .seq items => pure (pyElem items vv)
      | _ => pure (pyStr vv == pyStr cv)
    | none => pure false

/-- All checks of one clause (the `for check_key, check_value in
condition.items():` loop, lines 146-204): entries under the reserved
key `value` are skipped; the clause matches iff every remaining check
passes, stopping at the first failure. -/
def clauseChecks (fuel : Nat) (vars : Dict) : List (Value × Value) → Option Bool
  | [] => some true
  | (ck, cv) :: rest =>
    if pyEq ck (.str "value") then clauseChecks fuel vars rest
    else do
      let ok ← checkOne fuel vars ck cv
      if ok then clauseChecks fuel vars rest else pure false

/-- The clause scan of `evaluate_conditionals` (lines 138-208): start
from the default, take the `value` entry of the first clause whose
checks all pass, short-circuiting the rest; non-dict clauses are
skipped. -/
def selectClause (fuel : Nat) (vars : Dict) : List Value → Value → Option Value
  | [], dflt => some dflt
  | c :: rest, dflt =>
    match c with
    | .map entries => do
      let met ← clauseChecks fuel vars entries
      if met then pure (getD entries (.str "value") .null)
      else selectClause fuel vars rest dflt
    | _ => selectClause fuel vars rest dflt

/-- Normalisation of the `conditions` entry (lines 133-136): a missing
entry means no clauses, a dict is wrapped into a one-clause list, a list
is used as is.  Iterating any other value either visits no dict (a
string) or raises in CPython (`None`, a number); both are modelled as no
clauses and exercised by no claim. -/
def conditionsOf (condDef : Dict) : List Value :=
  match alookup condDef (.str "conditions") with
  | some (.seq xs) => xs
  | some (.map m) => [.map m]
  | _ => []

/-- `TemplateProcessor.evaluate_conditionals(conditionals, variables)`
(lines 115-214): for each dict-valued conditional, resolve placeholders
in its name (keeping the original name unless the resolution is a
string), select a value via `selectClause`, resolve placeholders in that
value, and record it under the resolved name. -/
def evaluate_conditionals (fuel : Nat) (vars : Dict) : List (Value × Value) → Dict → Option Dict
  | [], results => some results
  | (cname, cdef) :: rest, results =>
    match cdef with
    | .map cd => do
      let rn ← resolve_variable fuel vars cname 10
      let key : Value := match rn with | .str s => .str s | _ => cname
      let dflt := getD cd (.str "default") .null
      let sel ← selectClause fuel vars (conditionsOf cd) dflt
      let fin ← resolve_variable fuel vars sel 10
      evaluate_conditionals fuel vars rest (aset results key fin)
    | _ => evaluate_conditionals fuel vars rest results

/-- The environment seeding of `process_template` (lines 229-233):
`variables = dict(user_variables)` followed by the unconditional
assignment `variables["key"] = key`. -/
def seedVars (userVars : Dict) (key : Value) : Dict := aset userVars (.str "key") key

/-- The first defaults merge of `process_template` (lines 237-243):
resolve each default key and set it only when no variable of the
resolved name exists yet. -/
def defaultMerge1 (fuel : Nat) : List (Value × Value) → Dict → Option Dict
  | [], vars => some vars
  | (dk, dv) :: rest, vars => do
    let rk ← resolve_variable fuel vars dk 10
    defaultMerge1 fuel rest (if amem vars rk then vars else aset vars rk dv)

/-- The value half of a fixed-point pass (lines 248-251): walk a
snapshot of the entries and re-resolve every string value that still
contains `<<`, against the environment as updated so far. -/
def valuePass (fuel : Nat) : List (Value × Value) → Dict → Option Dict
  | [], vars => some vars
  | (vk, vv) :: rest, vars =>
    match vv with
    | .str s =>
      if hasSub s.data "<<".data then do
        let r ← resolve_variable fuel vars (.str s) 10
        valuePass fuel rest (aset vars vk r)
      else valuePass fuel rest vars
    | _ => valuePass fuel rest vars

/-- The key half of a fixed-point pass (lines 252-261): rebuild the
dict, re-resolving every string key that still contains `<<`.  Note the
source drops an entry whose key contains `<<` but resolves to itself. -/
def keyPass (fuel : Nat) (vars : Dict) : List (Value × Value) → Dict → Option Dict
  | [], acc => some acc
  | (vk, vv) :: rest, acc =>
    match vk with
    | .str s =>
      if hasSub s.data "<<".data then do
        let rk ← resolve_variable fuel vars (.str s) 10
        keyPass fuel vars rest (if pyEq rk (.str s) then acc else aset acc rk vv)
      else keyPass fuel vars rest (aset acc vk vv)
    | _ => keyPass fuel vars rest (aset acc vk vv)

/-- The first bounded fixed-point loop of `process_template` (lines
246-263): up to `n` passes, each re-resolving values then keys,
stopping as soon as a pass leaves the environment unchanged (Python
dict equality). -/
def phase1Loop (fuel : Nat) : Nat → Dict → Option Dict
  | 0, vars => some vars
  | n + 1, vars => do
    let v1 ← valuePass fuel vars vars
    let v2 ← keyPass fuel v1 v1 []
    if dictEq v2 vars then pure v2 else phase1Loop fuel n v2

/-- The second bounded fixed-point loop of `process_template` (lines
289-296): identical iteration structure but each pass re-resolves
values only — there is no key pass. -/
def phase2Loop (fuel : Nat) : Nat → Dict → Option Dict
  | 0, vars => some vars
  | n + 1, vars => do
    let v1 ← valuePass fuel vars vars
    if dictEq v1 vars then pure v1 else phase2Loop fuel n v1

/-- The second defaults merge of `process_template` (lines 274-286):
for each default whose raw value is a string containing `<<`,
re-resolve it and upgrade the variable if it was unset, `None`, or
still an unresolved string. -/
def defaultMerge2 (fuel : Nat) : List (Value × Value) → Dict → Option Dict
  | [], vars => some vars
  | (dk, dv) :: rest, vars => do
    let rk ← resolve_variable fuel vars dk 10
    match dv with
    | .str s =>
      if hasSub s.data "<<".data then do
        let rv ← resolve_variable fuel vars (.str s) 10
        let upgrade :=
          match rv with
          | .null => false
          | _ =>
            match alookup vars rk with
            | none => true
            | some .null => true
            | some (.str cur) => hasSub cur.data "<<".data
            | some _ => false
        defaultMerge2 fuel rest (if upgrade then aset vars rk rv else vars)
      else defaultMerge2 fuel rest vars
    | _ => defaultMerge2 fuel rest vars

/-- The overlay resolution loop of `process_template` (lines 304-314):
resolve key and value of every declared overlay entry; an entry whose
declared key equals `"name"` is kept whenever its resolved value is not
`None` (even if it still contains placeholders); every other entry is
kept only when its resolved value is neither `None` nor a string still
containing `<<`. -/
def overlayKeepName (acc : Dict) (rk rv : Value) : Dict :=
  match rv with
  | .null => acc
  | v => aset acc rk v

def overlayKeepOther (acc : Dict) (rk rv : Value) : Dict :=
  match rv with
  | .null => acc
  | .str s => if hasSub s.data "<<".data then acc else aset acc rk (.str s)
  | v => aset acc rk v

def overlayKeep (acc : Dict) (ok rk rv : Value) : Dict :=
  if pyEq ok (.str "name") then overlayKeepName acc rk rv else overlayKeepOther acc rk rv

def overlayResolve (fuel : Nat) (vars : Dict) : List (Value × Value) → Dict → Option Dict
  | [], acc => some acc
  | (ok, ov) :: rest, acc => do
    let rk ← resolve_variable fuel vars ok 10
    let rv ← resolve_variable fuel vars ov 10
    overlayResolve fuel vars rest (overlayKeep acc ok rk rv)

/-- The environment-building stages of `process_template` (lines
229-296): seed, first defaults merge, first fixed-point loop (5
passes), conditionals, second defaults merge, second fixed-point loop
(5 passes, values only). -/
def buildEnv (fuel : Nat) (tdef : Dict) (userVars : Dict) (key : Value) : Option Dict := do
  let vars := seedVars userVars key
  let vars ←
    match alookup tdef (.str "default") with
    | some (.map ds) => defaultMerge1 fuel ds vars
    | _ => pure vars
  let vars ← phase1Loop fuel 5 vars
  let vars ←
    match alookup tdef (.str "conditionals") with
    | some (.map cs) => do
      let res ← evaluate_conditionals fuel vars cs []
      pure (dictUpdate vars res)
    | _ => pure vars
  let vars ←
    match alookup tdef (.str "default") with
    | some (.map ds) => defaultMerge2 fuel ds vars
    | _ => pure vars
  phase2Loop fuel 5 vars

/-- The final overlay stage of `process_template` (lines 299-316):
a missing, falsy, or empty `overlay` section yields an empty result
(truthy non-dict sections raise in CPython and are exercised by no
claim); otherwise resolve every entry. -/
def finalOverlay (fuel : Nat) (tdef : Dict) (vars : Dict) : Option Dict :=
  match alookup tdef (.str "overlay") with
  | some (.map es) => if es.isEmpty then some [] else overlayResolve fuel vars es []
  | _ => some []

/-- `TemplateProcessor.process_template(template_name, template_def,
user_variables, key)` (lines 216-316).  The `template_name` parameter
is unused by the source body and dropped here. -/
def process_template (fuel : Nat) (tdef : Dict) (userVars : Dict) (key : Value) : Option Dict :=
  (buildEnv fuel tdef userVars key).bind (finalOverlay fuel tdef)

/-- Modelled from the spec (section 4.3 step 6) for the refinement
comparison of claim C6 only: the variant of the environment pipeline in
which the second bounded fixed-point loop performs passes identical to
the first one (values and keys), as the spec asserts the code does. -/
def buildEnvSpecIdenticalP2 (fuel : Nat) (tdef : Dict) (userVars : Dict) (key : Value) :
    Option Dict := do
  let vars := seedVars userVars key
  let vars ←
    match alookup tdef (.str "default") with
    | some (.map ds) => defaultMerge1 fuel ds vars
    | _ => pure vars
  let vars ← phase1Loop fuel 5 vars
  let vars ←
    match alookup tdef (.str "conditionals") with
    | some (.map cs) => do
      let res ← evaluate_conditionals fuel vars cs []
      pure (dictUpdate vars res)
    | _ => pure vars
  let vars ←
    match alookup tdef (.str "default") with
    | some (.map ds) => defaultMerge2 fuel ds vars
    | _ => pure vars
  phase1Loop fuel 5 vars

/-- Modelled from the spec (section 4.3 step 6), see
`buildEnvSpecIdenticalP2`: `process_template` as the spec describes it
for claim C6. -/
def process_template_specIdenticalP2 (fuel : Nat) (tdef : Dict) (userVars : Dict)
    (key : Value) : Option Dict :=
  (buildEnvSpecIdenticalP2 fuel tdef userVars key).bind (finalOverlay fuel tdef)

/-- Outcome of reading and parsing one file: the file may be missing,
it may fail to open or parse (both raise inside the `try` of the
source), or it parses to a value. -/
inductive FileOutcome where
  | missing
  | unreadable
  | parsed (data : Value)

/-- The template cache `self._template_cache`, keyed by the raw
`template_source` string. -/
abbrev Cache := List (String × Value)

def lookupStr : Cache → String → Option Value
  | [], _ => none
  | (k, v) :: rest, s => if k = s then some v else lookupStr rest s

def setStr : Cache → String → Value → Cache
  | [], s, v => [(s, v)]
  | (k, w) :: rest, s, v => if k = s then (k, v) :: rest else (k, w) :: setStr rest s v

/-- Path resolution of `load_templates` (lines 34-40): the bare name
`"templates"` maps to `templates.yml` in the defaults directory; any
other relative source is resolved against the defaults directory;
absolute sources (leading `/`, POSIX) are used as given. -/
def resolvePath (defaultsDir source : String) : String :=
  if source = "templates" then defaultsDir ++ "/templates.yml"
  else if source.data.head? = some '/' then source
  else defaultsDir ++ "/" ++ source

/-- `TemplateProcessor.load_templates(template_source)` (lines 29-53),
as a function of the filesystem.  Returns the templates mapping and the
updated cache.  A cache hit short-circuits; a missing file returns an
empty dict without caching; an exception while reading or parsing (or
while calling `.get` on a truthy non-dict document) is caught and also
returns an empty dict without caching; a successful parse extracts the
`templates` entry and caches it. -/
def load_templates (fs : String → FileOutcome) (defaultsDir : String) (cache : Cache)
    (source : String) : Value × Cache :=
  match lookupStr cache source with
  | some t => (t, cache)
  | none =>
    match fs (resolvePath defaultsDir source) with
    | .missing => (.map [], cache)
    | .unreadable => (.map [], cache)
    | .parsed data =>
      if pyTruthy data then
        match data with
        | .map es =>
          let t := getD es (.str "templates") (.map [])
          (t, setStr cache source t)
        | _ => (.map [], cache)
      else (.map [], setStr cache source (.map []))

/-- Python `str.strip()` (whitespace on both ends). -/
def pyStrip (s : String) : String :=
  let ws := fun c => c = ' ' ∨ c = '\t' ∨ c = '\n' ∨ c = '\r' ∨ c = '\x0b' ∨ c = '\x0c'
  String.mk (((s.data.dropWhile ws).reverse.dropWhile ws).reverse)

/-- Python `s.split(sep, 1)` restricted to a present, nonempty
separator: the part before the first occurrence and the part after. -/
def splitFirst : List Char → List Char → Option (List Char × List Char)
  | [], _ => none
  | c :: rest, sep =>
    if sep.isPrefixOf (c :: rest) ∧ sep ≠ [] then some ([], (c :: rest).drop sep.length)
    else
      match splitFirst rest sep with
      | some (pre, post) => some (c :: pre, post)
      | none => none

/-- One iteration of the rating-shorthand loop of
`preprocess_template_variables` (lines 332-344) for index `i`: if
`rating<i>` is a string containing `" / "`, split it at the first
separator into the stripped type and image parts. -/
def expandRating (i : Nat) (result : Dict) : Dict :=
  let key := "rating" ++ toString i
  match alookup result (.str key) with
  | some (.str v) =>
    if hasSub v.data " / ".data then
      match splitFirst v.data " / ".data with
      | some (pre, post) =>
        aset (aset result (.str key) (.str (pyStrip (String.mk pre))))
          (.str (key ++ "_image")) (.str (pyStrip (String.mk post)))
      | none => result
    else result
  | _ => result

/-- `TemplateProcessor.preprocess_template_variables(variables)` (lines
318-346): copy the caller mapping, then expand the rating shorthand for
`rating1`, `rating2`, `rating3` in order. -/
def preprocess_template_variables (vars0 : Dict) : Dict :=
  expandRating 3 (expandRating 2 (expandRating 1 vars0))

/-- The inner loop of `_extract_external_template_vars` (lines
373-384): split the `template_variables` entries into plain variables
and conditionals.  A dict under `default` contributes its entries as
variables (first writer wins); a dict under `conditionals` is collected
separately; everything else (including non-dict values under those two
keys) is a plain variable. -/
def extractEntries : List (Value × Value) → Dict × Dict → Dict × Dict
  | [], acc => acc
  | (tk, tv) :: rest, (vars, conds) =>
    if pyEq tk (.str "default") then
      match tv with
      | .map ds =>
        extractEntries rest
          (ds.foldl (fun acc kv => if amem acc kv.1 then acc else aset acc kv.1 kv.2) vars, conds)
      | _ => extractEntries rest (aset vars tk tv, conds)
    else if pyEq tk (.str "conditionals") then
      match tv with
      | .map cs => extractEntries rest (vars, dictUpdate conds cs)
      | _ => extractEntries rest (aset vars tk tv, conds)
    else extractEntries rest (aset vars tk tv, conds)

/-- `TemplateProcessor._extract_external_template_vars(ext_tmpl)`
(lines 348-386). -/
def extractExternalTemplateVars (extTmpl : Dict) : Dict × Dict :=
  match alookup extTmpl (.str "template_variables") with
  | some (.map tvs) => extractEntries tvs ([], [])
  | _ => ([], [])

/-- Normalisation of the `template` field of an overlay entry (line
447): a list of calls, or a single call wrapped into a list. -/
def templateCallsOf : Value → List Value
  | .seq xs => xs
  | v => [v]

/-- Name and call-site variables of one template call (lines 469-476):
a dict call uses its `name` entry (default `"standard"`) and its other
entries as variables; a string call is a bare name; anything else is
skipped (`none`). -/
def callNameVars : Value → Option (Value × Dict)
  | .map es =>
    some (getD es (.str "name") (.str "standard"), es.filter fun kv => !pyEq kv.1 (.str "name"))
  | .str s => some (.str s, [])
  | _ => none

/-- Unwrapping and external-conditional merging for one template
definition (lines 481-494): a nonempty list form degenerates to its
first element; a non-dict definition becomes empty; nonempty external
conditionals are merged beneath the template's own `conditionals`
(whose entries override).  A non-dict `conditionals` value would make
CPython raise at `.update`; it is left untouched here and exercised by
no claim. -/
def effectiveTemplate (extConds : Dict) (tdefRaw : Value) : Dict :=
  let tdef1 :=
    match tdefRaw with
    | .seq (x :: _) => x
    | v => v
  let eff := match tdef1 with | .map es => es | _ => []
  if extConds.isEmpty then eff
  else
    match alookup eff (.str "conditionals") with
    | some (.map tcs) => aset eff (.str "conditionals") (.map (dictUpdate extConds tcs))
    | some _ => eff
    | none => aset eff (.str "conditionals") (.map extConds)

/-- The merge of one template's resolved result into the running entry
result (lines 502-505): keep entries whose key does not start with `_`
and whose value is not `None`.  A non-string key makes CPython raise at
`.startswith`; it is treated as not underscore-prefixed here and
exercised by no claim. -/
def mergeResolved : List (Value × Value) → Dict → Dict
  | [], merged => merged
  | (rk, rv) :: rest, merged =>
    let underscore := match rk with | .str s => s.data.head? = some '_' | _ => false
    let isNone := match rv with | .null => true | _ => false
    mergeResolved rest (if underscore || isNone then merged else aset merged rk rv)

/-- The `for tmpl_call in template_calls:` loop (lines 468-505): skip
calls that are neither dict nor string and calls whose template is not
in the combined library; otherwise process the template and merge its
nonempty result, later calls overriding earlier ones. -/
def runCalls (fuel : Nat) (allT : Dict) (extConds : Dict) (overlayVars : Dict) :
    List Value → Dict → Option Dict
  | [], merged => some merged
  | c :: rest, merged =>
    match callNameVars c with
    | none => runCalls fuel allT extConds overlayVars rest merged
    | some (tname, tvars) =>
      match alookup allT tname with
      | none => runCalls fuel allT extConds overlayVars rest merged
      | some tdefRaw => do
        let eff := effectiveTemplate extConds tdefRaw
        let combined := dictUpdate overlayVars tvars
        let resolved ← process_template fuel eff combined (getD combined (.str "key") (.str ""))
        let merged := if resolved.isEmpty then merged else mergeResolved resolved merged
        runCalls fuel allT extConds overlayVars rest merged

/-- The display name one template call contributes to the `_template`
bookkeeping string (lines 509-512): a dict call contributes its `name`
entry (CPython would raise while joining if that entry is missing or
not a string; modelled via `str()` and exercised by no claim), any
other call contributes its `str()`. -/
def callDisplayName : Value → String
  | .map es =>
    match alookup es (.str "name") with
    | some (.str s) => s
    | some other => pyStr other
    | none => pyStr (.map es)
  | v => pyStr v

/-- The comma-joined `_template` string (lines 509-512), built from all
declared template calls of the entry. -/
def joinNames (calls : List Value) : String :=
  ", ".intercalate (calls.map callDisplayName)

/-- The per-entry variable seed (lines 449-464): user variables,
overlaid by the entry's `variables` then `template_variables` dicts,
plus a `key` derived from the entry name (text after the last `-`)
unless one is already present.  A non-string entry name makes CPython
raise at `"-" in name`; it is used verbatim here and exercised by no
claim. -/
def entryVars (userVars : Dict) (oname : Value) (odef : Dict) : Dict :=
  let ovars := userVars
  let ovars :=
    match alookup odef (.str "variables") with
    | some (.map vs) => dictUpdate ovars vs
    | _ => ovars
  let ovars :=
    match alookup odef (.str "template_variables") with
    | some (.map vs) => dictUpdate ovars vs
    | _ => ovars
  if amem ovars (.str "key") then ovars
  else
    aset ovars (.str "key")
      (match oname with
       | .str s =>
         if hasSub s.data "-".data then .str (String.mk ((s.data.reverse.takeWhile (· ≠ '-')).reverse))
         else .str s
       | v => v)

/-- The declared template calls of an entry (lines 446-447). -/
def entryCalls (odef : Dict) : List Value := templateCallsOf (getD odef (.str "template") .null)

/-- The direct-overlay resolution loop (lines 522-526): resolve every
declared value against the user variables (keys are not resolved) and
drop `None` results. -/
def directResolve (fuel : Nat) (userVars : Dict) : List (Value × Value) → Dict → Option Dict
  | [], acc => some acc
  | (ok, ov) :: rest, acc => do
    let rv ← resolve_variable fuel userVars ov 10
    directResolve fuel userVars rest
      (match rv with
       | .null => acc
       | v => aset acc ok v)

/-- The loop body of `expand_overlay_file` for one overlay entry (lines
440-530).  The result distinguishes divergence (outer `none`), an entry
that appends nothing (`some none`), and an appended element
(`some (some d)`). -/
def processEntry (fuel : Nat) (allT : Dict) (extConds : Dict) (userVars : Dict)
    (oname : Value) (odef : Dict) : Option (Option Dict) :=
  if amem odef (.str "template") then do
    let merged ← runCalls fuel allT extConds (entryVars userVars oname odef) (entryCalls odef) []
    if merged.isEmpty then pure none
    else
      pure (some (aset (aset merged (.str "_original_name") oname)
        (.str "_template") (.str (joinNames (entryCalls odef)))))
  else if amem odef (.str "overlay") then
    match alookup odef (.str "overlay") with
    | some (.map cfg) => do
      let resolved ← directResolve fuel userVars cfg []
      pure (some (aset (aset resolved (.str "_original_name") oname)
        (.str "_direct") (.bool true)))
    | _ => pure none
  else pure none

/-- The `for overlay_name, overlay_def in overlays_section.items():`
loop (lines 440-530): non-dict entries are skipped, appended elements
are collected in declaration order. -/
def goEntries (fuel : Nat) (allT : Dict) (extConds : Dict) (userVars : Dict) :
    List (Value × Value) → Option (List Dict)
  | [] => some []
  | (oname, odef) :: rest =>
    match odef with
    | .map od => do
      let r ← processEntry fuel allT extConds userVars oname od
      let others ← goEntries fuel allT extConds userVars rest
      pure (match r with | some x => x :: others | none => others)
    | _ => goEntries fuel allT extConds userVars rest

/-- View of a value as a dict entry list (`\x7b**v\x7d` / `.items()`);
non-dict values would make CPython raise and are exercised by no
claim. -/
def toEntries : Value → Dict
  | .map es => es
  | _ => []

/-- `TemplateProcessor.expand_overlay_file(file_path,
user_template_variables)` (lines 388-532), as a function of the
filesystem.  The third result component is the caller-supplied
`user_template_variables` mapping as the caller observes it after the
call: the source copies it (`dict(variables)` inside
`preprocess_template_variables`) before any write, and every later
write (`user_vars[ek] = ev`, `overlay_vars.update(...)`,
`dict(user_variables)` inside `process_template`) targets one of the
copies, so the component is returned exactly as passed in. -/
def expand_overlay_file (fuel : Nat) (fs : String → FileOutcome) (defaultsDir : String)
    (cache : Cache) (path : String) (userTemplateVariables : Option Dict) :
    Option (List Dict × Cache × Dict) :=
  let caller := userTemplateVariables.getD []
  match fs path with
  | .missing => some ([], cache, caller)
  | .unreadable => some ([], cache, caller)
  | .parsed data =>
    if pyTruthy data then
      match data with
      | .map d =>
        let userVars0 := preprocess_template_variables caller
        let state :=
          match alookup d (.str "external_templates") with
          | some (.map ext) =>
            let source :=
              match getD ext (.str "default") (.str "templates") with
              | .str s => s
              | other => pyStr other
            let loaded := load_templates fs defaultsDir cache source
            let extracted := extractExternalTemplateVars ext
            let uv := extracted.1.foldl
              (fun (acc : Dict) (kv : Value × Value) =>
                if amem acc kv.1 then acc else aset acc kv.1 kv.2) userVars0
            (loaded.1, loaded.2, uv, extracted.2)
          | _ => (Value.map [], cache, userVars0, ([] : Dict))
        let allT := dictUpdate (toEntries state.1) (toEntries (getD d (.str "templates") (.map [])))
        let overlays := toEntries (getD d (.str "overlays") (.map []))
        (goEntries fuel allT state.2.2.2 state.2.2.1 overlays).map
          fun res => (res, state.2.1, caller)
      | _ => some ([], cache, caller)
    else some ([], cache, caller)

/-- The state of the inner loop of `resolve_variable` on the failing
input of claim C1 after `k` replacements: `k` copies of `x` in front of
`<<a>>y`. -/
def c1State (k : Nat) : List Char := List.replicate k 'x' ++ ['<', '<', 'a', '>', '>', 'y']

/-- The environment of the failing input of claim C1: `a` maps to a
string containing its own placeholder inside a larger string. -/
def c1Env : Dict := [(.str "a", .str "x<<a>>")]

/-- A clause that does not determine the result of the scan: it is
either not a dict (the loop skips it) or its checks evaluate to a
failure. -/
def clauseSkipsOrFails (fuel : Nat) (vars : Dict) (c : Value) : Prop :=
  (∀ es, c ≠ Value.map es) ∨ (∃ es, c = Value.map es ∧ clauseChecks fuel vars es = some false)

/-! ### Sanity checks: the embedding computes the behaviours the spec
lists as testable properties (section 8) -/

theorem sanity_type_preservation :
    resolve_variable 3 [(.str "x", .num 5)] (.str "<<x>>") 10 = some (.num 5) := rfl

theorem sanity_in_string :
    resolve_variable 3 [(.str "x", .num 5)] (.str "prefix <<x>> suffix") 10 =
      some (.str "prefix 5 suffix") := rfl

theorem sanity_nested :
    resolve_variable 5 [(.str "rating_num", .str "1"), (.str "rating1_font", .str "Arial")]
      (.str "<<rating<<rating_num>>_font>>") 10 = some (.str "Arial") := rfl

theorem sanity_no_placeholder :
    resolve_variable 3 [] (.str "no placeholders") 10 = some (.str "no placeholders") := rfl

theorem sanity_unresolvable_untouched :
    resolve_variable 3 [] (.str "<<missing>> stays") 10 = some (.str "<<missing>> stays") := rfl

theorem sanity_conditional_first_wins :
    evaluate_conditionals 3 [(.str "a", .str "1")]
      [(.str "out", .map [(.str "conditions", .seq
        [.map [(.str "a", .str "1"), (.str "value", .str "first")],
         .map [(.str "a", .str "1"), (.str "value", .str "second")]])])]
      [] = some [(.str "out", .str "first")] := rfl

theorem sanity_exists_unresolved :
    evaluate_conditionals 3 [(.str "v", .str "un<<res>>olved")]
      [(.str "out", .map [(.str "default", .str "D"), (.str "conditions", .seq
        [.map [(.str "v.exists", .bool true), (.str "value", .str "yes")]])])]
      [] = some [(.str "out", .str "D")] := rfl

theorem sanity_process_template :
    process_template 5
      [(.str "default", .map [(.str "pos", .str "left")]),
       (.str "overlay", .map [(.str "name", .str "text(<<key>>)"),
                              (.str "horizontal_align", .str "<<pos>>"),
                              (.str "missing", .str "<<gone>>")])]
      [] (.str "HDR") =
      some [(.str "name", .str "text(HDR)"), (.str "horizontal_align", .str "left")] := rfl

theorem sanity_rating_shorthand :
    preprocess_template_variables [(.str "rating1", .str "user / rt_tomato")] =
      [(.str "rating1", .str "user"), (.str "rating1_image", .str "rt_tomato")] := rfl

/-! ### Lemmas about the placeholder scanner and the substitution step -/

theorem matchAt_not_lt {c : Char} (h : c ≠ '<') (cs : List Char) :
    matchAt (c :: cs) = none := by
  cases cs with
  | nil => rfl
  | cons c2 rest => simp [matchAt, h]

theorem matchAt_lt_not_lt {c2 : Char} (h : c2 ≠ '<') (cs : List Char) :
    matchAt ('<' :: c2 :: cs) = none := by
  simp [matchAt, h]

theorem findInner_cons_not_lt {c : Char} (h : c ≠ '<') (cs : List Char) :
    findInner (c :: cs) = findInner cs := by
  simp [findInner, matchAt_not_lt h]

theorem findInner_clean {s : List Char} (h : ∀ c ∈ s, c ≠ '<') : findInner s = [] := by
  induction s with
  | nil => rfl
  | cons c rest ih =>
    rw [findInner_cons_not_lt (h c (List.mem_cons_self c rest))]
    exact ih fun c hc => h c (List.mem_cons_of_mem _ hc)

theorem findInner_append_clean {pre : List Char} (h : ∀ c ∈ pre, c ≠ '<') (s : List Char) :
    findInner (pre ++ s) = findInner s := by
  induction pre with
  | nil => rfl
  | cons c rest ih =>
    rw [List.cons_append, findInner_cons_not_lt (h c (List.mem_cons_self c rest))]
    exact ih fun c hc => h c (List.mem_cons_of_mem _ hc)

theorem findInner_cons_lt_not_lt {c2 : Char} (h : c2 ≠ '<') (cs : List Char) :
    findInner ('<' :: c2 :: cs) = findInner (c2 :: cs) := by
  simp [findInner, matchAt_lt_not_lt h]

theorem takeWhile_all_append {p : Char → Bool} {xs : List Char} (ys : List Char)
    (h : ∀ x ∈ xs, p x = true) : (xs ++ ys).takeWhile p = xs ++ ys.takeWhile p := by
  induction xs with
  | nil => rfl
  | cons x rest ih =>
    have hx := h x (List.mem_cons_self x rest)
    have ht := ih fun c hc => h c (List.mem_cons_of_mem _ hc)
    simp [List.takeWhile_cons, hx, ht]

theorem matchAt_placeholder {x : String} (hne : x.data ≠ [])
    (hx : ∀ c ∈ x.data, c ≠ '<' ∧ c ≠ '>') (rest : List Char) :
    matchAt ('<' :: '<' :: (x.data ++ '>' :: '>' :: rest)) = some (x, rest) := by
  have hrun : (x.data ++ '>' :: '>' :: rest).takeWhile
      (fun c => decide (c ≠ '<' ∧ c ≠ '>')) = x.data := by
    rw [takeWhile_all_append _ (fun c hc => by simpa using hx c hc)]
    simp [List.takeWhile_cons]
  simp only [matchAt, and_self, if_true, hrun]
  rw [List.drop_left]
  simp [hne]

theorem findInner_placeholder {x : String} (hne : x.data ≠ [])
    (hx : ∀ c ∈ x.data, c ≠ '<' ∧ c ≠ '>') {rest : List Char} (hrest : ∀ c ∈ rest, c ≠ '<') :
    findInner ('<' :: '<' :: (x.data ++ '>' :: '>' :: rest)) = [x] := by
  rw [findInner, matchAt_placeholder hne hx]
  have h2 : findInner ('<' :: (x.data ++ '>' :: '>' :: rest)) = [] := by
    obtain ⟨c0, ctl, hd⟩ : ∃ c0 ctl, x.data = c0 :: ctl := by
      cases hcc : x.data with
      | nil => exact absurd hcc hne
      | cons a b => exact ⟨a, b, rfl⟩
    have hc0 : c0 ≠ '<' := (hx c0 (hd ▸ List.mem_cons_self c0 ctl)).1
    have hctl : ∀ c ∈ ctl, c ≠ '<' :=
      fun c hc => (hx c (hd ▸ List.mem_cons_of_mem _ hc)).1
    rw [hd, List.cons_append, findInner_cons_lt_not_lt hc0,
      findInner_cons_not_lt hc0, findInner_append_clean hctl,
      findInner_cons_not_lt (by decide), findInner_cons_not_lt (by decide)]
    exact findInner_clean hrest
  rw [h2]

theorem isPrefixOf_append (pat s : List Char) : pat.isPrefixOf (pat ++ s) = true := by
  induction pat with
  | nil => simp [List.isPrefixOf]
  | cons p ps ih => simp [List.isPrefixOf, ih]

theorem replAux_cons_not_lt {pat : List Char} {c : Char} (hp : pat.head? = some '<')
    (h : c ≠ '<') (rest rep : List Char) :
    replAux pat rep (c :: rest) 0 = c :: replAux pat rep rest 0 := by
  have hnp : ¬ pat.isPrefixOf (c :: rest) = true := by
    cases pat with
    | nil => simp at hp
    | cons p ps =>
      simp only [List.head?_cons, Option.some.injEq] at hp
      subst hp
      simp only [List.isPrefixOf, Bool.and_eq_true, beq_iff_eq]
      intro hc
      exact h hc.1.symm
  simp [replAux, hnp]

theorem replAux_skip (pat rep l s : List Char) :
    replAux pat rep (l ++ s) l.length = replAux pat rep s 0 := by
  induction l with
  | nil => rfl
  | cons c rest ih => simpa [replAux] using ih

theorem replAux_at {pat : List Char} (hne : pat ≠ []) (rep s : List Char) :
    replAux pat rep (pat ++ s) 0 = rep ++ replAux pat rep s 0 := by
  cases pat with
  | nil => exact absurd rfl hne
  | cons p ps =>
    have hpre : (p :: ps).isPrefixOf (p :: (ps ++ s)) = true := by
      rw [← List.cons_append]
      exact isPrefixOf_append _ _
    rw [List.cons_append, replAux, if_pos ⟨hpre, hne⟩]
    have hl : (p :: ps).length - 1 = ps.length := by simp
    rw [hl, replAux_skip]

theorem replAux_clean_prefix {pat : List Char} (hp : pat.head? = some '<') {pre : List Char}
    (hpre : ∀ c ∈ pre, c ≠ '<') (rep s : List Char) :
    replAux pat rep (pre ++ s) 0 = pre ++ replAux pat rep s 0 := by
  induction pre with
  | nil => rfl
  | cons c rest ih =>
    rw [List.cons_append, replAux_cons_not_lt hp (hpre c (List.mem_cons_self c rest)),
      ih fun c hc => hpre c (List.mem_cons_of_mem _ hc), List.cons_append]

theorem replAux_clean {pat : List Char} (hp : pat.head? = some '<') {s : List Char}
    (hs : ∀ c ∈ s, c ≠ '<') (rep : List Char) : replAux pat rep s 0 = s := by
  induction s with
  | nil => rfl
  | cons c rest ih =>
    rw [replAux_cons_not_lt hp (hs c (List.mem_cons_self c rest))]
    rw [ih fun c hc => hs c (List.mem_cons_of_mem _ hc)]

/-! ### Generic lemmas about one resolution step -/

theorem substMatches_cons_found {vars : Dict} {m : String} {v : Value}
    (hv : alookup vars (.str m) = some v) (hnn : v ≠ .null) (rest : List String)
    (result : List Char) (made : Bool) :
    substMatches vars (m :: rest) result made =
      if result = ("<<" ++ m ++ ">>").data then .ret v
      else substMatches vars rest (replaceAll result ("<<" ++ m ++ ">>").data (pyStr v).data)
        true := by
  rw [substMatches, hv]
  cases v with
  | null => exact absurd rfl hnn
  | bool b => rfl
  | num n => rfl
  | str s => rfl
  | seq xs => rfl
  | map es => rfl

theorem innerLoop_no_match {vars : Dict} {r : List Char} (h : findInner r = []) (f : Nat) :
    innerLoop vars (f + 1) r = some (.inr r) := by
  simp [innerLoop, h]

theorem outerLoop_no_match {vars : Dict} {r : List Char} (h : findInner r = []) (f n : Nat) :
    outerLoop vars (f + 1) (n + 1) r = some (.str (String.mk r)) := by
  simp [outerLoop, innerLoop_no_match h]

theorem outerLoop_changed (vars : Dict) (f n : Nat) {result r : List Char}
    (h : innerLoop vars f result = some (.inr r)) (hne : r ≠ result) :
    outerLoop vars f (n + 1) result = outerLoop vars f n r := by
  rw [outerLoop, h]
  simp [hne]

/-! ### Claim C1 -/

theorem c1_findInner (k : Nat) : findInner (c1State k) = ["a"] := by
  induction k with
  | zero => rfl
  | succ n ih =>
    show findInner ('x' :: c1State n) = ["a"]
    rw [findInner_cons_not_lt (by decide)]
    exact ih

theorem c1_replace (k : Nat) :
    replaceAll (c1State k) "<<a>>".data "x<<a>>".data = c1State (k + 1) := by
  induction k with
  | zero => decide
  | succ n ih =>
    show replAux _ _ ('x' :: c1State n) 0 = c1State (n + 2)
    rw [replAux_cons_not_lt (by decide) (by decide)]
    exact congrArg ('x' :: ·) ih

theorem c1_state_ne (k : Nat) : ¬ c1State k = "<<a>>".data := by
  intro h
  have := congrArg List.length h
  simp [c1State] at this

theorem c1_subst (k : Nat) :
    substMatches c1Env ["a"] (c1State k) false = .cont (c1State (k + 1)) true := by
  have hstep : substMatches c1Env ["a"] (c1State k) false =
      if c1State k = "<<a>>".data then .ret (.str "x<<a>>")
      else .cont (replaceAll (c1State k) "<<a>>".data "x<<a>>".data) true := rfl
  rw [hstep, if_neg (c1_state_ne k)]
  exact congrArg (SubstR.cont · true) (c1_replace k)

theorem c1_innerLoop (fuel : Nat) : ∀ k, innerLoop c1Env fuel (c1State k) = none := by
  induction fuel with
  | zero => intro k; rfl
  | succ n ih =>
    intro k
    simp only [innerLoop, c1_findInner k, c1_subst k]
    simpa using ih (k + 1)

/-- C1, refuted by the code: on the environment mapping `a` to
`"x<<a>>"` and the input string `"<<a>>y"`, the inner `while True:`
loop of `resolve_variable` replaces `<<a>>` with `x<<a>>` forever (the
string after `k` iterations is `x…x<<a>>y`), so the function never
returns, at any fuel: the `max_depth` bound of the source only caps the
outer loop, not this inner one. -/
theorem c1_code_divergence (fuel : Nat) :
    resolve_variable fuel c1Env (.str "<<a>>y") 10 = none := by
  show outerLoop c1Env fuel 10 "<<a>>y".data = none
  have h10 : (10 : Nat) = 9 + 1 := rfl
  have h0 : "<<a>>y".data = c1State 0 := by decide
  rw [h10, outerLoop, h0, c1_innerLoop fuel 0]

/-! ### Claim C2 -/

/-- C2, first half (whole-string type preservation): when the whole
string is exactly one placeholder `<<x>>` (with `x` a nonempty
identifier free of angle brackets) and `x` is bound to a non-None value
`v`, `resolve_variable` returns `v` itself, whatever its type. -/
theorem c2_whole_string (fuel : Nat) (x : String) (vars : Dict) (v : Value)
    (hne : x.data ≠ []) (hx : ∀ c ∈ x.data, c ≠ '<' ∧ c ≠ '>')
    (hv : alookup vars (.str x) = some v) (hnn : v ≠ .null) :
    resolve_variable (fuel + 1) vars (.str ("<<" ++ x ++ ">>")) 10 = some v := by
  have hdata : ("<<" ++ x ++ ">>").data = '<' :: '<' :: (x.data ++ '>' :: '>' :: []) := by
    simp [String.data_append]
  have hfi : findInner ("<<" ++ x ++ ">>").data = [x] := by
    rw [hdata]
    exact findInner_placeholder hne hx (by intro c hc; cases hc)
  have hil : innerLoop vars (fuel + 1) ("<<" ++ x ++ ">>").data = some (.inl v) := by
    simp only [innerLoop, hfi]
    rw [substMatches_cons_found hv hnn, if_pos rfl]
  show outerLoop vars (fuel + 1) 10 ("<<" ++ x ++ ">>").data = some v
  have h10 : (10 : Nat) = 9 + 1 := rfl
  rw [h10, outerLoop, hil]

/-- C2, second half (in-string stringification): a placeholder inside a
larger string (placeholder-free prefix and suffix, not both empty) is
replaced by the `str()` form of its value, provided that form
introduces no angle brackets of its own. -/
theorem c2_in_string (fuel : Nat) (pre suf x : String) (vars : Dict) (v : Value)
    (hne : x.data ≠ []) (hx : ∀ c ∈ x.data, c ≠ '<' ∧ c ≠ '>')
    (hpre : ∀ c ∈ pre.data, c ≠ '<' ∧ c ≠ '>') (hsuf : ∀ c ∈ suf.data, c ≠ '<' ∧ c ≠ '>')
    (hns : ¬(pre.data = [] ∧ suf.data = []))
    (hv : alookup vars (.str x) = some v) (hnn : v ≠ .null)
    (hsv : ∀ c ∈ (pyStr v).data, c ≠ '<' ∧ c ≠ '>') :
    resolve_variable (fuel + 2) vars (.str (pre ++ "<<" ++ x ++ ">>" ++ suf)) 10 =
      some (.str (pre ++ pyStr v ++ suf)) := by
  have hphd : ("<<" ++ x ++ ">>").data = '<' :: '<' :: (x.data ++ '>' :: '>' :: []) := by
    simp [String.data_append]
  have hdata : (pre ++ "<<" ++ x ++ ">>" ++ suf).data =
      pre.data ++ '<' :: '<' :: (x.data ++ '>' :: '>' :: suf.data) := by
    simp [String.data_append]
  have hfi : findInner (pre ++ "<<" ++ x ++ ">>" ++ suf).data = [x] := by
    rw [hdata, findInner_append_clean (fun c hc => (hpre c hc).1)]
    exact findInner_placeholder hne hx (fun c hc => (hsuf c hc).1)
  have hlen : (pre ++ "<<" ++ x ++ ">>" ++ suf).data.length =
      pre.data.length + x.data.length + 4 + suf.data.length := by
    rw [hdata]
    simp
    omega
  have hphlen : ("<<" ++ x ++ ">>").data.length = x.data.length + 4 := by
    rw [hphd]
    simp
  have hDne : ¬ (pre ++ "<<" ++ x ++ ">>" ++ suf).data = ("<<" ++ x ++ ">>").data := by
    intro h
    have hl := congrArg List.length h
    rw [hlen, hphlen] at hl
    have hp : pre.data.length = 0 := by omega
    have hs : suf.data.length = 0 := by omega
    exact hns ⟨List.length_eq_zero.mp hp, List.length_eq_zero.mp hs⟩
  have hrepl : replaceAll (pre ++ "<<" ++ x ++ ">>" ++ suf).data ("<<" ++ x ++ ">>").data
      (pyStr v).data = pre.data ++ (pyStr v).data ++ suf.data := by
    have hsplit : (pre ++ "<<" ++ x ++ ">>" ++ suf).data =
        pre.data ++ (("<<" ++ x ++ ">>").data ++ suf.data) := by
      rw [hdata, hphd]; simp
    have hhead : ("<<" ++ x ++ ">>").data.head? = some '<' := by rw [hphd]; rfl
    have hpne : ("<<" ++ x ++ ">>").data ≠ [] := by rw [hphd]; simp
    show replAux _ _ _ 0 = _
    rw [hsplit, replAux_clean_prefix hhead (fun c hc => (hpre c hc).1),
      replAux_at hpne, replAux_clean hhead (fun c hc => (hsuf c hc).1)]
    simp
  have hRclean : ∀ c ∈ pre.data ++ (pyStr v).data ++ suf.data, c ≠ '<' := by
    intro c hc
    simp only [List.append_assoc, List.mem_append] at hc
    rcases hc with h | h | h
    · exact (hpre c h).1
    · exact (hsv c h).1
    · exact (hsuf c h).1
  have hil : innerLoop vars (fuel + 2) (pre ++ "<<" ++ x ++ ">>" ++ suf).data =
      some (.inr (pre.data ++ (pyStr v).data ++ suf.data)) := by
    have : innerLoop vars (fuel + 2) (pre ++ "<<" ++ x ++ ">>" ++ suf).data =
        innerLoop vars (fuel + 1) (pre.data ++ (pyStr v).data ++ suf.data) := by
      simp only [innerLoop, hfi]
      rw [substMatches_cons_found hv hnn, if_neg hDne, hrepl]
      rfl
    rw [this, innerLoop_no_match (findInner_clean hRclean)]
  have hRD : pre.data ++ (pyStr v).data ++ suf.data ≠
      (pre ++ "<<" ++ x ++ ">>" ++ suf).data := by
    intro h
    have heq : pre.data ++ ((pyStr v).data ++ suf.data) =
        pre.data ++ (("<<" ++ x ++ ">>").data ++ suf.data) := by
      rw [← List.append_assoc, h, hdata, hphd]
      simp
    have h2 := List.append_cancel_left heq
    have h3 := List.append_cancel_right h2
    have hmem : '<' ∈ (pyStr v).data := by
      rw [h3, hphd]
      exact List.mem_cons_self _ _
    exact (hsv '<' hmem).1 rfl
  show outerLoop vars (fuel + 2) 10 (pre ++ "<<" ++ x ++ ">>" ++ suf).data =
    some (.str (pre ++ pyStr v ++ suf))
  have h10 : (10 : Nat) = 9 + 1 := rfl
  have h9 : (9 : Nat) = 8 + 1 := rfl
  rw [h10, outerLoop_changed vars (fuel + 2) 9 hil hRD, h9,
    outerLoop_no_match (findInner_clean hRclean)]
  have hmk : pre.data ++ (pyStr v).data ++ suf.data = (pre ++ pyStr v ++ suf).data := by
    simp [String.data_append]
  rw [hmk]

/-- C2: for a string that is exactly one placeholder `<<x>>` bound to a
non-None value `v`, `resolve_variable` returns `v` itself with its
native type; a placeholder inside a larger string is substituted by the
stringification of its value. -/
theorem claim_c2 :
    (∀ (fuel : Nat) (x : String) (vars : Dict) (v : Value),
      x.data ≠ [] → (∀ c ∈ x.data, c ≠ '<' ∧ c ≠ '>') →
      alookup vars (.str x) = some v → v ≠ .null →
      resolve_variable (fuel + 1) vars (.str ("<<" ++ x ++ ">>")) 10 = some v) ∧
    (∀ (fuel : Nat) (pre suf x : String) (vars : Dict) (v : Value),
      x.data ≠ [] → (∀ c ∈ x.data, c ≠ '<' ∧ c ≠ '>') →
      (∀ c ∈ pre.data, c ≠ '<' ∧ c ≠ '>') → (∀ c ∈ suf.data, c ≠ '<' ∧ c ≠ '>') →
      ¬(pre.data = [] ∧ suf.data = []) →
      alookup vars (.str x) = some v → v ≠ .null →
      (∀ c ∈ (pyStr v).data, c ≠ '<' ∧ c ≠ '>') →
      resolve_variable (fuel + 2) vars (.str (pre ++ "<<" ++ x ++ ">>" ++ suf)) 10 =
        some (.str (pre ++ pyStr v ++ suf))) :=
  ⟨c2_whole_string, c2_in_string⟩

/-! ### Claim C3 -/

theorem pyEq_str_inv {a : Value} {s : String} (h : pyEq a (.str s) = true) : a = .str s := by
  cases a with
  | str t =>
    simp only [pyEq, beq_iff_eq] at h
    rw [h]
  | null => simp [pyEq] at h
  | bool b => simp [pyEq] at h
  | num n => simp [pyEq] at h
  | seq xs => simp [pyEq] at h
  | map es => simp [pyEq] at h

theorem resolve_no_placeholder {s : String} (hfi : findInner s.data = []) {fuel : Nat}
    {vars : Dict} {r : Value} (h : resolve_variable fuel vars (.str s) 10 = some r) :
    r = .str s := by
  have h10 : (10 : Nat) = 9 + 1 := rfl
  cases fuel with
  | zero =>
    rw [show resolve_variable 0 vars (.str s) 10 = outerLoop vars 0 10 s.data from rfl,
      h10, outerLoop] at h
    exact Option.noConfusion h
  | succ f =>
    rw [show resolve_variable (f + 1) vars (.str s) 10 = outerLoop vars (f + 1) 10 s.data
        from rfl, h10, outerLoop_no_match hfi] at h
    exact (Option.some.injEq _ _ ▸ h).symm

theorem aset_forall {P : Value × Value → Prop} {d : Dict} {k v : Value}
    (hd : ∀ kv ∈ d, P kv) (hrep : ∀ k0, pyEq k0 k = true → P (k0, v)) (hnew : P (k, v)) :
    ∀ kv ∈ aset d k v, P kv := by
  induction d with
  | nil =>
    intro kv hkv
    rw [aset] at hkv
    rcases List.mem_singleton.mp hkv with rfl
    exact hnew
  | cons kv0 rest ih =>
    obtain ⟨k0, v0⟩ := kv0
    intro kv hkv
    rw [aset] at hkv
    by_cases hc : pyEq k0 k = true
    · rw [if_pos hc] at hkv
      rcases List.mem_cons.mp hkv with rfl | htl
      · exact hrep k0 hc
      · exact hd kv (List.mem_cons_of_mem _ htl)
    · rw [if_neg hc] at hkv
      rcases List.mem_cons.mp hkv with rfl | htl
      · exact hd _ (List.mem_cons_self _ _)
      · exact ih (fun kv h => hd kv (List.mem_cons_of_mem _ h)) kv htl

theorem overlayKeep_forall {acc : Dict} {ok rk rv : Value}
    (hacc : ∀ kv ∈ acc, kv.2 ≠ Value.null ∧
      (∀ s, kv.2 = Value.str s → hasSub s.data "<<".data = true → kv.1 = Value.str "name"))
    (hrkn : pyEq ok (.str "name") = true → rk = Value.str "name") :
    ∀ kv ∈ overlayKeep acc ok rk rv, kv.2 ≠ Value.null ∧
      (∀ s, kv.2 = Value.str s → hasSub s.data "<<".data = true → kv.1 = Value.str "name") := by
  rw [overlayKeep]
  split
  · next hname =>
    rcases hrkn hname with rfl
    have hgen : ∀ v : Value, v ≠ Value.null →
        ∀ kv ∈ aset acc (Value.str "name") v, kv.2 ≠ Value.null ∧
          (∀ s, kv.2 = Value.str s → hasSub s.data "<<".data = true →
            kv.1 = Value.str "name") := by
      intro v hv
      refine aset_forall hacc (fun k0 hk0 => ?_) ?_
      · rcases pyEq_str_inv hk0 with rfl
        exact ⟨hv, fun _ _ _ => rfl⟩
      · exact ⟨hv, fun _ _ _ => rfl⟩
    cases rv with
    | null => exact hacc
    | bool b => exact hgen _ (fun h => Value.noConfusion h)
    | num n => exact hgen _ (fun h => Value.noConfusion h)
    | str s => exact hgen _ (fun h => Value.noConfusion h)
    | seq xs => exact hgen _ (fun h => Value.noConfusion h)
    | map es => exact hgen _ (fun h => Value.noConfusion h)
  · next hname =>
    have hgen : ∀ v : Value, v ≠ Value.null → (∀ s, v ≠ Value.str s) →
        ∀ kv ∈ aset acc rk v, kv.2 ≠ Value.null ∧
          (∀ s, kv.2 = Value.str s → hasSub s.data "<<".data = true →
            kv.1 = Value.str "name") := by
      intro v hv hvs
      refine aset_forall hacc (fun k0 _ => ?_) ?_
      · exact ⟨hv, fun s hs => absurd hs (hvs s)⟩
      · exact ⟨hv, fun s hs => absurd hs (hvs s)⟩
    cases rv with
    | null => exact hacc
    | bool b => exact hgen _ (fun h => Value.noConfusion h) (fun s h => Value.noConfusion h)
    | num n => exact hgen _ (fun h => Value.noConfusion h) (fun s h => Value.noConfusion h)
    | seq xs => exact hgen _ (fun h => Value.noConfusion h) (fun s h => Value.noConfusion h)
    | map es => exact hgen _ (fun h => Value.noConfusion h) (fun s h => Value.noConfusion h)
    | str s =>
      show ∀ kv ∈ (if hasSub s.data "<<".data then acc else aset acc rk (Value.str s)), _
      by_cases hsub : hasSub s.data "<<".data = true
      · rw [if_pos hsub]
        exact hacc
      · rw [if_neg hsub]
        refine aset_forall hacc (fun k0 _ => ?_) ?_
        · refine ⟨fun h => Value.noConfusion h, fun s' hs' hsub' => absurd ?_ hsub⟩
          rcases Value.str.injEq _ _ ▸ hs' with rfl
          exact hsub'
        · refine ⟨fun h => Value.noConfusion h, fun s' hs' hsub' => absurd ?_ hsub⟩
          rcases Value.str.injEq _ _ ▸ hs' with rfl
          exact hsub'

theorem overlayResolve_inv (fuel : Nat) (vars : Dict) :
    ∀ (entries : List (Value × Value)) (acc res : Dict),
      overlayResolve fuel vars entries acc = some res →
      (∀ kv ∈ acc, kv.2 ≠ Value.null ∧
        (∀ s, kv.2 = Value.str s → hasSub s.data "<<".data = true → kv.1 = Value.str "name")) →
      ∀ kv ∈ res, kv.2 ≠ Value.null ∧
        (∀ s, kv.2 = Value.str s → hasSub s.data "<<".data = true → kv.1 = Value.str "name") := by
  intro entries
  induction entries with
  | nil =>
    intro acc res h hacc
    rw [overlayResolve] at h
    rcases Option.some.injEq _ _ ▸ h with rfl
    exact hacc
  | cons e rest ih =>
    obtain ⟨ok, ov⟩ := e
    intro acc res h hacc
    rw [overlayResolve] at h
    simp only [Option.bind_eq_bind', Option.bind_eq_some] at h
    obtain ⟨rk, hrk, rv, hrv, h⟩ := h
    refine ih _ res h (overlayKeep_forall hacc fun hname => ?_)
    rcases pyEq_str_inv hname with rfl
    exact resolve_no_placeholder (by decide) hrk

/-- C3: every entry of a `process_template` result has a non-None
value, and an entry whose value is a string still containing `<<` can
only be the one stored from the declared `name` key (which the source
stores under the key `"name"`, since the literal `"name"` resolves to
itself); every other declared entry whose resolved value is `None` or
an unresolved string is dropped. -/
theorem claim_c3 (fuel : Nat) (tdef userVars : Dict) (key : Value) (res : Dict)
    (h : process_template fuel tdef userVars key = some res) :
    ∀ kv ∈ res, kv.2 ≠ Value.null ∧
      (∀ s, kv.2 = Value.str s → hasSub s.data "<<".data = true → kv.1 = Value.str "name") := by
  rw [process_template, Option.bind_eq_some] at h
  obtain ⟨vars, _, hf⟩ := h
  rw [finalOverlay] at hf
  split at hf
  · next es _ =>
    split at hf
    · rcases Option.some.injEq _ _ ▸ hf with rfl
      intro kv hkv
      cases hkv
    · exact overlayResolve_inv fuel vars es [] res hf (fun kv hkv => by cases hkv)
  · rcases Option.some.injEq _ _ ▸ hf with rfl
    intro kv hkv
    cases hkv

/-- C3 witness: at a concrete template whose overlay declares a literal
`name`, a resolvable field and an unresolvable one, the resolvable
field's entry in the result is not None (the unresolvable `missing`
field is absent from the computed result, as the hypothesis shows). -/
theorem claim_c3_witness : Value.str "left" ≠ Value.null :=
  (claim_c3 5
    [(.str "default", .map [(.str "pos", .str "left")]),
     (.str "overlay", .map [(.str "name", .str "text(<<key>>)"),
                            (.str "horizontal_align", .str "<<pos>>"),
                            (.str "missing", .str "<<gone>>")])]
    [] (.str "HDR")
    [(.str "name", .str "text(HDR)"), (.str "horizontal_align", .str "left")] rfl
    (.str "horizontal_align", .str "left") (List.Mem.tail _ (List.Mem.head _))).1

/-- C2 witness: the two halves at concrete inputs: `<<x>>` with
`x = 5` resolves to the number `5` itself, `"prefix <<x>> suffix"`
resolves to the string `"prefix 5 suffix"`. -/
theorem claim_c2_witness :
    resolve_variable 1 [(.str "x", .num 5)] (.str ("<<" ++ "x" ++ ">>")) 10 = some (.num 5) ∧
    resolve_variable 2 [(.str "x", .num 5)]
      (.str ("prefix " ++ "<<" ++ "x" ++ ">>" ++ " suffix")) 10 =
      some (.str ("prefix " ++ pyStr (.num 5) ++ " suffix")) :=
  ⟨claim_c2.1 0 "x" [(.str "x", .num 5)] (.num 5) (by decide) (by decide) rfl
      (fun h => Value.noConfusion h),
    claim_c2.2 0 "prefix " " suffix" "x" [(.str "x", .num 5)] (.num 5) (by decide) (by decide)
      (by decide) (by decide) (by decide) rfl (fun h => Value.noConfusion h) (by decide)⟩

/-! ### Claim C4 -/

theorem selectClause_skip {fuel : Nat} {vars : Dict} {dflt : Value} {c : Value}
    (hnm : ∀ es, c ≠ Value.map es) (rest : List Value) :
    selectClause fuel vars (c :: rest) dflt = selectClause fuel vars rest dflt := by
  cases c with
  | map es => exact absurd rfl (hnm es)
  | null =>
    rw [selectClause]
    exact fun _ h => Value.noConfusion h
  | bool b =>
    rw [selectClause]
    exact fun _ h => Value.noConfusion h
  | num n =>
    rw [selectClause]
    exact fun _ h => Value.noConfusion h
  | str s =>
    rw [selectClause]
    exact fun _ h => Value.noConfusion h
  | seq xs =>
    rw [selectClause]
    exact fun _ h => Value.noConfusion h

/-- C4: the clause scan starts from the default and is first-match
oriented: with every clause before `c` skipping or failing and `c`'s
checks all passing, the result is `c`'s `value` entry, whatever comes
after `c` (short-circuit; in particular a later clause that would also
match is never consulted); and when every clause skips or fails the
default is returned. -/
theorem claim_c4 :
    (∀ (fuel : Nat) (vars : Dict) (dflt : Value) (pre : List Value)
       (centries : List (Value × Value)) (post : List Value),
      (∀ c ∈ pre, clauseSkipsOrFails fuel vars c) →
      clauseChecks fuel vars centries = some true →
      selectClause fuel vars (pre ++ Value.map centries :: post) dflt =
        some (getD centries (.str "value") .null)) ∧
    (∀ (fuel : Nat) (vars : Dict) (dflt : Value) (cs : List Value),
      (∀ c ∈ cs, clauseSkipsOrFails fuel vars c) →
      selectClause fuel vars cs dflt = some dflt) := by
  constructor
  · intro fuel vars dflt pre centries post hpre hc
    induction pre with
    | nil =>
      rw [List.nil_append, selectClause, hc]
      rfl
    | cons c rest ih =>
      have hskip := hpre c (List.mem_cons_self c rest)
      have htail : ∀ c ∈ rest, clauseSkipsOrFails fuel vars c :=
        fun c hc => hpre c (List.mem_cons_of_mem _ hc)
      rw [List.cons_append]
      rcases hskip with hnm | ⟨es, rfl, hf⟩
      · rw [selectClause_skip hnm]
        exact ih htail
      · rw [selectClause, hf]
        exact ih htail
  · intro fuel vars dflt cs hcs
    induction cs with
    | nil => rfl
    | cons c rest ih =>
      have hskip := hcs c (List.mem_cons_self c rest)
      have htail : ∀ c ∈ rest, clauseSkipsOrFails fuel vars c :=
        fun c hc => hcs c (List.mem_cons_of_mem _ hc)
      rcases hskip with hnm | ⟨es, rfl, hf⟩
      · rw [selectClause_skip hnm]
        exact ih htail
      · rw [selectClause, hf]
        exact ih htail

/-- C4 witness: two clauses that both match (`a = "1"` holds in the
environment); the scan returns the first clause's value `"first"`,
never `"second"`; and with no clauses at all the default is returned. -/
theorem claim_c4_witness :
    selectClause 1 [(.str "a", .str "1")]
      [Value.map [(.str "a", .str "1"), (.str "value", .str "first")],
       Value.map [(.str "a", .str "1"), (.str "value", .str "second")]]
      (.str "D") = some (.str "first") ∧
    selectClause 1 [(.str "a", .str "1")] [] (.str "D") = some (.str "D") :=
  ⟨claim_c4.1 1 [(.str "a", .str "1")] (.str "D") []
      [(.str "a", .str "1"), (.str "value", .str "first")]
      [Value.map [(.str "a", .str "1"), (.str "value", .str "second")]]
      (fun c hc => absurd hc (List.not_mem_nil c)) rfl,
    claim_c4.2 1 [(.str "a", .str "1")] (.str "D") []
      (fun c hc => absurd hc (List.not_mem_nil c))⟩

/-! ### Claim C5 -/

/-- C5, refuted by the code: `process_template` overwrites a
caller-supplied `key` binding with the `key` argument unconditionally
(line 233 has no presence check).  With `user_variables` binding `key`
to `"foo"` and the argument `"bar"`, the overlay `name: <<key>>`
resolves to `"bar"`, not to the caller's `"foo"` as the claim
predicts. -/
theorem c5_counterexample :
    process_template 5 [(.str "overlay", .map [(.str "name", .str "<<key>>")])]
      [(.str "key", .str "foo")] (.str "bar") = some [(.str "name", .str "bar")] ∧
    Value.str "bar" ≠ Value.str "foo" :=
  ⟨rfl, by simp⟩

theorem alookup_aset_str (d : Dict) (s : String) (v : Value) :
    alookup (aset d (.str s) v) (.str s) = some v := by
  induction d with
  | nil => simp [aset, alookup, pyEq]
  | cons kv rest ih =>
    obtain ⟨k0, v0⟩ := kv
    by_cases hc : pyEq k0 (.str s) = true
    · rw [aset, if_pos hc, alookup, if_pos hc]
    · rw [aset, if_neg hc, alookup, if_neg hc]
      exact ih

/-- C5 as amended: the environment seeding of `process_template` sets
the `key` variable to the keyHint argument unconditionally, so the
keyHint — not a caller-supplied `key` binding — is what is visible
during resolution; the caller `expand_overlay_file` compensates by
passing `combined_vars.get("key", "")` as the keyHint. -/
theorem c5_amended (userVars : Dict) (keyv : Value) :
    alookup (seedVars userVars keyv) (.str "key") = some keyv :=
  alookup_aset_str userVars "key" keyv

/-! ### Claim C6 -/

/-- C6, refuted by the code: the second fixed-point phase is not
identical to the first.  On this template the conditional named
`<<a>>` resolves to the key `<<c>>` (type preservation returns the
still-unresolved value of `a`), the second defaults merge later makes
`<<c>>` resolvable, and only a key re-resolution would turn the
environment entry `<<c>> ↦ "V"` into `b ↦ "V"`.  The code's
values-only second phase leaves `<<b>>` unresolved in the overlay,
while the spec's identical-passes variant resolves it to `"V"`. -/
theorem c6_counterexample :
    process_template 5
      [(.str "default", .map [(.str "a", .str "<<c>>")]),
       (.str "conditionals", .map
         [(.str "c", .map [(.str "default", .str "b")]),
          (.str "<<a>>", .map [(.str "default", .str "V")])]),
       (.str "overlay", .map [(.str "name", .str "<<b>>")])]
      [] (.str "k") = some [(.str "name", .str "<<b>>")] ∧
    process_template_specIdenticalP2 5
      [(.str "default", .map [(.str "a", .str "<<c>>")]),
       (.str "conditionals", .map
         [(.str "c", .map [(.str "default", .str "b")]),
          (.str "<<a>>", .map [(.str "default", .str "V")])]),
       (.str "overlay", .map [(.str "name", .str "<<b>>")])]
      [] (.str "k") = some [(.str "name", .str "V")] ∧
    Value.str "<<b>>" ≠ Value.str "V" :=
  ⟨rfl, rfl, by simp⟩

/-- C6 as amended: the second bounded fixed-point phase of
`process_template` runs up to 5 passes each of which re-resolves only
the variable values still containing `<<` (there is no key
re-resolution, unlike the first phase), and it stops early as soon as a
pass leaves the environment unchanged under Python dict equality. -/
theorem c6_amended :
    (∀ (fuel : Nat) (vars : Dict), phase2Loop fuel 0 vars = some vars) ∧
    (∀ (fuel n : Nat) (vars : Dict),
      phase2Loop fuel (n + 1) vars = (valuePass fuel vars vars).bind
        (fun v1 => if dictEq v1 vars then some v1 else phase2Loop fuel n v1)) ∧
    (∀ (fuel n : Nat) (vars v1 : Dict), valuePass fuel vars vars = some v1 →
      dictEq v1 vars = true → phase2Loop fuel (n + 1) vars = some v1) := by
  refine ⟨fun fuel vars => rfl, fun fuel n vars => rfl, fun fuel n vars v1 h1 h2 => ?_⟩
  rw [phase2Loop, h1]
  simp [h2]

/-- C6 amended-claim witness: the early-stop conjunct applied at the
empty environment, whose value pass changes nothing. -/
theorem c6_amended_witness : phase2Loop 1 5 [] = some [] :=
  c6_amended.2.2 1 4 [] [] rfl rfl

/-! ### Claim C7 -/

/-- C7: with no cache entry for the source, a missing or unreadable
(or unparsable) file makes `load_templates` return an empty mapping and
leave the cache untouched — the failure is not cached — and therefore a
later call with the same source against a filesystem where the file now
parses returns that file's `templates` mapping.  (The function is a
total Lean function: it returns on every input, modelling that the
source catches all exceptions of the load.) -/
theorem claim_c7 (fs : String → FileOutcome) (defaultsDir : String) (cache : Cache)
    (source : String) (hnc : lookupStr cache source = none)
    (hfail : fs (resolvePath defaultsDir source) = .missing ∨
      fs (resolvePath defaultsDir source) = .unreadable) :
    load_templates fs defaultsDir cache source = (.map [], cache) ∧
    ∀ (fs2 : String → FileOutcome) (es : List (Value × Value)),
      fs2 (resolvePath defaultsDir source) = .parsed (.map es) → es ≠ [] →
      (load_templates fs2 defaultsDir cache source).1 = getD es (.str "templates") (.map []) := by
  constructor
  · rw [load_templates, hnc]
    rcases hfail with h | h <;> rw [h]
  · intro fs2 es h2 hne
    rw [load_templates, hnc, h2]
    simp [pyTruthy, List.isEmpty_iff, hne]

/-- C7 witness: a concrete missing-then-appearing file: the first load
returns an empty mapping with the cache unchanged, the retry against
the new filesystem returns the parsed `templates` section. -/
theorem claim_c7_witness :
    load_templates (fun _ => .missing) "/defaults/overlays" [] "templates" = (.map [], []) ∧
    (load_templates
        (fun _ => .parsed (.map [(.str "templates", .map [(.str "t", .map [])])]))
        "/defaults/overlays" [] "templates").1 = .map [(.str "t", .map [])] :=
  ⟨(claim_c7 (fun _ => .missing) "/defaults/overlays" [] "templates" rfl (Or.inl rfl)).1,
    (claim_c7 (fun _ => .missing) "/defaults/overlays" [] "templates" rfl (Or.inl rfl)).2
      (fun _ => .parsed (.map [(.str "templates", .map [(.str "t", .map [])])]))
      [(.str "templates", .map [(.str "t", .map [])])] rfl (List.cons_ne_nil _ _)⟩

/-! ### Claim C8 -/

/-- C8, refuted by the code: the `_template` bookkeeping string joins
over all declared template calls, including calls skipped because the
template was not found in the library.  Here only `good` exists and is
invoked, yet `_template` reads `"good, missing"`, not `"good"` as the
claim predicts. -/
theorem c8_counterexample :
    processEntry 5 [(.str "good", .map [(.str "overlay", .map [(.str "name", .str "N")])])]
      [] [] (.str "E") [(.str "template", .seq [.str "good", .str "missing"])] =
      some (some [(.str "name", .str "N"), (.str "_original_name", .str "E"),
        (.str "_template", .str "good, missing")]) ∧
    Value.str "good, missing" ≠ Value.str "good" :=
  ⟨rfl, by simp⟩

/-- C8 as amended: for an overlay entry with a `template` field whose
merged result is non-empty, the appended element carries a `_template`
field equal to the comma-joined display names of all declared template
calls of the entry — including names of calls that were skipped because
the template was not found. -/
theorem c8_amended (fuel : Nat) (allT extConds userVars : Dict) (oname : Value) (odef : Dict)
    (merged : Dict) (ht : amem odef (.str "template") = true)
    (hrun : runCalls fuel allT extConds (entryVars userVars oname odef) (entryCalls odef) [] =
      some merged)
    (hne : merged.isEmpty = false) :
    processEntry fuel allT extConds userVars oname odef =
      some (some (aset (aset merged (.str "_original_name") oname)
        (.str "_template") (.str (joinNames (entryCalls odef))))) ∧
    alookup (aset (aset merged (.str "_original_name") oname)
        (.str "_template") (.str (joinNames (entryCalls odef)))) (.str "_template") =
      some (.str (joinNames (entryCalls odef))) := by
  constructor
  · rw [processEntry, if_pos ht, hrun]
    simp [hne]
  · exact alookup_aset_str _ _ _

/-- C8 amended-claim witness: the amended statement applied at the
concrete entry of the counterexample (`good` found, `missing`
skipped). -/
theorem c8_amended_witness :
    processEntry 5 [(.str "good", .map [(.str "overlay", .map [(.str "name", .str "N")])])]
      [] [] (.str "E") [(.str "template", .seq [.str "good", .str "missing"])] =
      some (some [(.str "name", .str "N"), (.str "_original_name", .str "E"),
        (.str "_template", .str "good, missing")]) ∧
    alookup [(.str "name", .str "N"), (.str "_original_name", .str "E"),
        (.str "_template", .str "good, missing")] (.str "_template") =
      some (.str "good, missing") :=
  c8_amended 5 [(.str "good", .map [(.str "overlay", .map [(.str "name", .str "N")])])]
    [] [] (.str "E") [(.str "template", .seq [.str "good", .str "missing"])]
    [(.str "name", .str "N")] rfl rfl rfl

/-! ### Claim C9 -/

/-- C9: `expand_overlay_file` returns the caller-supplied
`user_template_variables` mapping unchanged: the source copies it
before its first write (`result = dict(variables)` in
`preprocess_template_variables`), and every subsequent dict write
targets one of the copies, never the caller's object — the model
threads the caller's mapping through the call explicitly as the third
result component. -/
theorem claim_c9 (fuel : Nat) (fs : String → FileOutcome) (defaultsDir : String)
    (cache : Cache) (path : String) (utv : Option Dict) (res : List Dict × Cache × Dict)
    (h : expand_overlay_file fuel fs defaultsDir cache path utv = some res) :
    res.2.2 = utv.getD [] := by
  simp only [expand_overlay_file] at h
  split at h
  · rcases Option.some.injEq _ _ ▸ h with rfl
    rfl
  · rcases Option.some.injEq _ _ ▸ h with rfl
    rfl
  · split at h
    · split at h
      · rw [Option.map_eq_some'] at h
        obtain ⟨r, _, hres⟩ := h
        rcases hres with rfl
        rfl
      · rcases Option.some.injEq _ _ ▸ h with rfl
        rfl
    · rcases Option.some.injEq _ _ ▸ h with rfl
      rfl

/-- C9 witness: a concrete call (missing file, caller mapping binding
`k`) returns that mapping unchanged as the third component. -/
theorem claim_c9_witness :
    (( [], [], [(Value.str "k", Value.num 1)] ) : List Dict × Cache × Dict).2.2 =
      (some [(Value.str "k", Value.num 1)] : Option Dict).getD [] :=
  claim_c9 1 (fun _ => .missing) "/defaults/overlays" [] "file.yml"
    (some [(Value.str "k", Value.num 1)]) ([], [], [(Value.str "k", Value.num 1)]) rfl

/-! ### Claim C10 -/

/-- C10: a direct (template-free) overlay entry whose `overlay` field
is a mapping always yields an appended element carrying
`_original_name` and `_direct`, even when every declared value resolves
to `None` and is dropped (second conjunct: such a resolution yields the
empty mapping, so the element holds only the two bookkeeping fields);
whereas an entry with a `template` field whose merged result is empty
appends nothing (third conjunct). -/
theorem claim_c10 :
    (∀ (fuel : Nat) (allT extConds userVars : Dict) (oname : Value) (odef : Dict)
       (cfg : List (Value × Value)) (rlist : Dict),
      amem odef (.str "template") = false →
      alookup odef (.str "overlay") = some (.map cfg) →
      directResolve fuel userVars cfg [] = some rlist →
      processEntry fuel allT extConds userVars oname odef =
        some (some (aset (aset rlist (.str "_original_name") oname)
          (.str "_direct") (.bool true)))) ∧
    (∀ (fuel : Nat) (userVars : Dict) (cfg : List (Value × Value)),
      (∀ kv ∈ cfg, resolve_variable fuel userVars kv.2 10 = some .null) →
      directResolve fuel userVars cfg [] = some []) ∧
    (∀ (fuel : Nat) (allT extConds userVars : Dict) (oname : Value) (odef : Dict),
      amem odef (.str "template") = true →
      runCalls fuel allT extConds (entryVars userVars oname odef) (entryCalls odef) [] =
        some [] →
      processEntry fuel allT extConds userVars oname odef = some none) := by
  refine ⟨?_, ?_, ?_⟩
  · intro fuel allT extConds userVars oname odef cfg rlist ht halo hdir
    have hmem : amem odef (.str "overlay") = true := by
      rw [amem, halo]
      rfl
    rw [processEntry, if_neg (by simp [ht]), if_pos hmem, halo]
    simp [hdir]
  · intro fuel userVars cfg
    induction cfg with
    | nil => intro _; rfl
    | cons e rest ih =>
      intro h
      obtain ⟨ok, ov⟩ := e
      have h0 := h (ok, ov) (List.mem_cons_self _ _)
      rw [directResolve, h0]
      simpa using ih fun kv hkv => h kv (List.mem_cons_of_mem _ hkv)
  · intro fuel allT extConds userVars oname odef ht hrun
    rw [processEntry, if_pos ht, hrun]
    rfl

/-- C10 witness: a direct entry whose single value is `None` still
yields an element with only the two bookkeeping fields, the all-None
resolution yields the empty mapping, and a template entry whose only
call names a missing template appends nothing. -/
theorem claim_c10_witness :
    processEntry 1 [] [] [] (.str "D") [(.str "overlay", .map [(.str "y", .null)])] =
      some (some [(.str "_original_name", .str "D"), (.str "_direct", .bool true)]) ∧
    directResolve 1 [] [(.str "y", Value.null)] [] = some [] ∧
    processEntry 1 [] [] [] (.str "T") [(.str "template", .str "missing")] = some none :=
  ⟨claim_c10.1 1 [] [] [] (.str "D") [(.str "overlay", .map [(.str "y", .null)])]
      [(.str "y", Value.null)] [] rfl rfl rfl,
    claim_c10.2.1 1 [] [(.str "y", Value.null)]
      (fun kv hkv => by
        rcases List.mem_singleton.mp hkv with rfl
        rfl),
    claim_c10.2.2 1 [] [] [] (.str "T") [(.str "template", .str "missing")] rfl rfl⟩
